import Mathlib

/-!
# Verification of the stockbroker agent orchestration core

Shallow embedding of the LangGraph orchestration core of the
assistant-ui-stockbroker repository: the router (`shouldContinue`), the
purchase-preparation node (`preparePurchaseDetails`), the purchase-execution
node (`executePurchase`), the channel reducers of the workflow, and the
graph driver loop, together with theorems settling the spec's claims.

JavaScript numbers are embedded as `Rat` (prices) and `Int` (quantities);
JavaScript string falsiness (`undefined`, `null`, `""` are all falsy) is
embedded by `jsStr`; thrown errors are `Except.error`; the external
collaborators (chat model, web search, structured extraction, price
snapshot endpoint, registered tools) are oracle functions carried in `Env`.
-/

namespace Stockbroker

/-- JavaScript truthiness for an optional string: `undefined` and the empty
string are both falsy.  `jsStr o` is `some s` exactly when `o` holds a
truthy (non-empty) string. -/
def jsStr : Option String → Option String
  | some s => if s = "" then none else some s
  | none => none

/-- Arguments of a tool call as inspected by the orchestration core:
`purchase_stock` calls carry optional `ticker`, `companyName`, `quantity`
and `maxPurchasePrice`; `executePurchase` additionally reads the `ticker`
argument of arbitrary calls.  Fields absent in the JSON argument object are
`none`. -/
structure ToolArgs where
  ticker : Option String := none
  companyName : Option String := none
  quantity : Option Int := none
  maxPurchasePrice : Option Rat := none
deriving DecidableEq, Repr

/-- A tool call `{id, name, args}` emitted by the reasoning engine.  The
`id` is optional because the source guards every use of `tc.id` against it
being missing. -/
structure ToolCall where
  id : Option String
  name : String
  args : ToolArgs
deriving DecidableEq, Repr

/-- A conversation message: user text, an AI message (with its possibly
empty `tool_calls` array; an absent array is observationally identical to
an empty one in every code path of the core), or a tool-result bound to a
tool-call id.  -/
inductive Message where
  | user (content : String)
  | ai (content : String) (tool_calls : List ToolCall)
  | tool (tool_call_id : String) (content : String)
deriving DecidableEq, Repr

/-- `_getType()` of a message. -/
def Message.getType : Message → String
  | .user _ => "human"
  | .ai _ _ => "ai"
  | .tool _ _ => "tool"

/-- The `tool_calls` of a message (`[]` when the message is not an AI
message, matching the `tool_calls?.` optional-chaining in the source). -/
def Message.toolCalls : Message → List ToolCall
  | .ai _ tcs => tcs
  | _ => []

/-- `StockPurchase` from tools.ts: the pending purchase record
`{ticker, quantity, maxPurchasePrice}`. -/
structure StockPurchase where
  ticker : String
  quantity : Int
  maxPurchasePrice : Rat
deriving DecidableEq, Repr

/-- The graph state (`AppStateSchema.State`): the message history and the
optional pending purchase (`requestedStockPurchaseDetails`, `null` embedded
as `none`). -/
structure State where
  messages : List Message
  requestedStockPurchaseDetails : Option StockPurchase
deriving DecidableEq, Repr

/-- A node's partial state update.  `requestedStockPurchaseDetails = none`
means the key was absent from the returned object (no channel write);
`some none` is an explicit `null` (clears the pending purchase);
`some (some p)` sets it. -/
structure Delta where
  messages : List Message
  requestedStockPurchaseDetails : Option (Option StockPurchase) := none
deriving DecidableEq, Repr

/-- The `messages` channel reducer of the workflow: if the current array is
empty the update replaces it, an absent update keeps the current value, and
otherwise the update is concatenated (an empty update array is truthy in
JavaScript and concatenates, which is also the identity). -/
def mergeMessages (current update : List Message) : List Message :=
  if current.isEmpty then update else current ++ update

/-- Applying a node's returned delta to the state through the workflow's
channel reducers: `messages` concatenates, `requestedStockPurchaseDetails`
is last-value (written only when the key is present in the update). -/
def applyDelta (s : State) (d : Delta) : State :=
  { messages := mergeMessages s.messages d.messages
    requestedStockPurchaseDetails :=
      match d.requestedStockPurchaseDetails with
      | none => s.requestedStockPurchaseDetails
      | some v => v }

/-- `JSON.stringify` of a `StockPurchase` record, in the insertion order
`ticker`, `quantity`, `maxPurchasePrice` of the object literal in
`preparePurchaseDetails`. -/
def serializeStockPurchase (p : StockPurchase) : String :=
  "\x7b\"ticker\":\"" ++ p.ticker ++ "\",\"quantity\":" ++ toString p.quantity
    ++ ",\"maxPurchasePrice\":" ++ toString p.maxPurchasePrice ++ "\x7d"

/-- A field of a registered tool's zod schema: its name and whether it is
optional. -/
structure SchemaField where
  name : String
  optional : Bool
deriving DecidableEq, Repr

/-- The argument schema of the registered `purchase_stock` tool
(tools.ts): every field, including `maxPurchasePrice`, is optional. -/
def purchaseStockToolSchema : List SchemaField :=
  [⟨"ticker", true⟩, ⟨"companyName", true⟩, ⟨"quantity", true⟩,
   ⟨"maxPurchasePrice", true⟩]

/-- Whether a field of the `purchase_stock` tool schema is optional. -/
def purchaseStockFieldOptional (field : String) : Bool :=
  (purchaseStockToolSchema.find? (fun f => f.name = field)).elim false (·.optional)

/-- The external collaborators of the orchestration core, as oracles:
`chat` is the reasoning engine (`llm.bindTools(...).invoke` on the system
prompt and history), `webSearch` is `webSearchTool.invoke`,
`extractTicker` is the structured-output extraction
(`llm.withStructuredOutput(...)`, whose schema guarantees a string
`ticker` field), `fetchPriceParsed` is `priceSnapshotTool.invoke({ticker})`
composed with `JSON.parse` and the numeric-`price`-field check (an
exception anywhere in that `try` block is `Except.error` carrying the
caught message), and `runTool` is the output text of a registered
non-purchase tool on a call routed to the tools node. -/
structure Env where
  chat : List Message → Message
  webSearch : String → String
  extractTicker : String → String
  fetchPriceParsed : String → Except String Rat
  runTool : ToolCall → String

/-- `findCompanyName`: resolve a ticker from a company name by a web search
followed by structured extraction over the search results. -/
def findCompanyName (env : Env) (companyName : String) : String :=
  let searchResults := env.webSearch
    ("What is the ticker symbol for " ++ companyName ++ "?")
  env.extractTicker
    ("Given the following search results, extract the ticker symbol for "
      ++ companyName ++ ":\n" ++ searchResults)

/-- The value of the router `shouldContinue`: in the source either a single
node-name string (`string`) or an array of node-name strings
(`string[]`). -/
inductive RouteResult where
  | single (dest : String)
  | multi (dests : List String)
deriving DecidableEq, Repr

/-- The LangGraph `END` sentinel. -/
def endNode : String := "__end__"

/-- `shouldContinue`: the conditional-edge router evaluated after each llm
step.  Returns `END` when the last message is not an AI message or carries
no tool calls, `execute_purchase` when a pending purchase exists, and
otherwise maps each tool call to `prepare_purchase_details` (purchase-named
calls) or `tools`.  The empty-list throw mirrors the source's second
`!tool_calls?.length` guard. -/
def shouldContinue (s : State) : Except String RouteResult :=
  match s.messages.getLast? with
  | none => .error "TypeError: lastMessage is undefined"
  | some lastMessage =>
    if lastMessage.getType ≠ "ai" ∨ lastMessage.toolCalls.isEmpty then
      .ok (.single endNode)
    else if s.requestedStockPurchaseDetails.isSome then
      .ok (.single "execute_purchase")
    else if lastMessage.toolCalls.isEmpty then
      .error "Expected tool_calls to be an array with at least one element"
    else
      .ok (.multi (lastMessage.toolCalls.map fun tc =>
        if tc.name = "purchase_stock" then "prepare_purchase_details" else "tools"))

/-- The tail of `preparePurchaseDetails` once a ticker string has been
determined (directly from the arguments, or resolved via
`findCompanyName`): re-check truthiness, fetch and parse the price
snapshot, default the quantity, require `maxPurchasePrice`, compare with
the ceiling, and on success build the pending purchase record. -/
def prepareResolved (env : Env) (purchaseId : String) (ticker : String)
    (args : ToolArgs) : Except String Delta :=
  if ticker = "" then
    .ok { messages := [.tool purchaseId "Could not determine ticker.",
                       .ai "Could not determine ticker." []] }
  else
    match env.fetchPriceParsed ticker with
    | .error e =>
      .ok { messages := [.tool purchaseId ("Price error: " ++ e)] }
    | .ok currentPrice =>
      let quantity := args.quantity.getD 1
      match args.maxPurchasePrice with
      | none => .error "maxPurchasePrice is undefined in tool call args"
      | some maxPurchasePrice =>
        if currentPrice > maxPurchasePrice then
          .ok { messages := [.tool purchaseId
            ("Price " ++ toString currentPrice ++ " > max "
              ++ toString maxPurchasePrice)] }
        else
          let requestedStockPurchaseDetails : StockPurchase :=
            ⟨ticker, quantity, maxPurchasePrice⟩
          .ok { messages := [.tool purchaseId
                  (serializeStockPurchase requestedStockPurchaseDetails)],
                requestedStockPurchaseDetails :=
                  some (some requestedStockPurchaseDetails) }

/-- `preparePurchaseDetails`: the purchase-preparation node.  Requires the
last message to be an AI message with a `purchase_stock` call carrying a
truthy id; if both `ticker` and `companyName` are falsy it answers every
outstanding call id and asks for the missing information; otherwise it
resolves the ticker (via `findCompanyName` when only `companyName` is
given) and continues in `prepareResolved`. -/
def preparePurchaseDetails (env : Env) (s : State) : Except String Delta :=
  match s.messages.getLast? with
  | none => .error "TypeError: lastMessage is undefined"
  | some lastMessage =>
    if lastMessage.getType ≠ "ai" then
      .error "Expected the last message to be an AI message"
    else
      match lastMessage.toolCalls.find? (fun tc => tc.name = "purchase_stock") with
      | none => .error "Expected purchase_stock tool call"
      | some purchaseStockToolCall =>
        match jsStr purchaseStockToolCall.id with
        | none => .error "Purchase stock tool call ID missing"
        | some purchaseId =>
          let args := purchaseStockToolCall.args
          match jsStr args.ticker with
          | some ticker => prepareResolved env purchaseId ticker args
          | none =>
            match jsStr args.companyName with
            | none =>
              let toolMessagesE : Except String (List Message) :=
                lastMessage.toolCalls.mapM (fun (tc : ToolCall) =>
                  match jsStr tc.id with
                  | none => Except.error "Tool call ID missing in mapping"
                  | some i =>
                    Except.ok (Message.tool i ("Missing info for " ++ tc.name)))
              toolMessagesE.map (fun toolMessages =>
                { messages := toolMessages
                    ++ [.ai "Ticker or company name required." []] })
            | some companyName =>
              prepareResolved env purchaseId (findCompanyName env companyName) args

/-- The backward scan of `executePurchase` over the (already reversed)
message list: in each AI message, `find` the first call that is
purchase-named or whose `ticker` argument strictly equals the pending
ticker; stop with its id only when that id is truthy, otherwise keep
scanning earlier messages. -/
def scanForRelevant (ticker : String) : List Message → Option String
  | [] => none
  | m :: rest =>
    match m with
    | .ai _ tcs =>
      match tcs.find? (fun (tc : ToolCall) =>
          tc.name == "purchase_stock" || tc.args.ticker == some ticker) with
      | some relevantToolCall =>
        match jsStr relevantToolCall.id with
        | some i => some i
        | none => scanForRelevant ticker rest
      | none => scanForRelevant ticker rest
    | _ => scanForRelevant ticker rest

/-- `executePurchase`: the purchase-execution node.  Requires a pending
purchase; locates the originating tool-call id by the backward scan, with a
fallback to the first tool call of the most recent AI message that has
tool calls; emits the confirmation tool-result and clears
`requestedStockPurchaseDetails` (an explicit `null` write). -/
def executePurchase (s : State) : Except String Delta :=
  match s.requestedStockPurchaseDetails with
  | none => .error "Missing purchase details"
  | some p =>
    let fromScan := scanForRelevant p.ticker s.messages.reverse
    let originalToolCallId :=
      match fromScan with
      | some i => some i
      | none =>
        match s.messages.reverse.find? (fun m =>
            m.getType = "ai" ∧ ¬ m.toolCalls.isEmpty) with
        | some lastAiMsg => jsStr (lastAiMsg.toolCalls.head?.bind (·.id))
        | none => none
    match originalToolCallId with
    | none => .error "Cannot find tool_call_id for purchase response"
    | some oid =>
      .ok { messages := [.tool oid
              ("Simulated purchase of " ++ toString p.quantity ++ " of "
                ++ p.ticker ++ " at <= " ++ toString p.maxPurchasePrice ++ ".")],
            requestedStockPurchaseDetails := some none }

/-- Modelled from the spec: the tools node (`DISPATCH_TOOLS`) is prebuilt
library code not present under src/.  Per spec sections 4.1 and 4.2, each
destination of the fan-out "processes only the calls it owns", and
dispatch converts every outcome (success or failure) of a routed call into
exactly one tool-result message tagged with the call's correlation id;
`runTool` supplies the output text.  -/
def toolNodeRun (env : Env) (s : State) : Delta :=
  let owned : List ToolCall :=
    match s.messages.getLast? with
    | some m => m.toolCalls.filter (fun tc => tc.name ≠ "purchase_stock")
    | none => []
  { messages := owned.map (fun tc => .tool (tc.id.getD "") (env.runTool tc)) }

/-- `callModel`: the llm node, returning the engine's next message as a
singleton update. -/
def callModel (env : Env) (s : State) : Delta :=
  { messages := [env.chat s.messages] }

/-- Run the node a conditional-edge destination names. -/
def runNode (env : Env) (name : String) (s : State) : Except String Delta :=
  if name = "tools" then .ok (toolNodeRun env s)
  else if name = "prepare_purchase_details" then preparePurchaseDetails env s
  else if name = "execute_purchase" then executePurchase s
  else .error ("Unknown node: " ++ name)

/-- The set of nodes a router value activates in the next superstep: `END`
activates nothing; a list of names activates each distinct named node once
(the conditional-edge mapping keys the destinations by name, so duplicates
in the returned array collapse to one activation per node). -/
def routeTargets : RouteResult → List String
  | .single dest => if dest = endNode then [] else [dest]
  | .multi dests => dests.dedup

/-- The messages appended to history in one routed cycle (between one
reasoning step and the next): route by `shouldContinue`, run every
activated node on the current state, and join their message updates. -/
def cycleMessages (env : Env) (s : State) : Except String (List Message) := do
  let r ← shouldContinue s
  let ds ← (routeTargets r).mapM (fun n => runNode env n s)
  pure (ds.map (·.messages)).flatten

/-- The graph driver from a routing point: evaluate `shouldContinue`; on
`END` return the state to the caller unchanged; otherwise run the activated
nodes, merge their deltas through the channel reducers, run the llm node on
the merged state, and route again.  `fuel` bounds the number of cycles
(LangGraph's recursion limit). -/
def runFromRouter (env : Env) : Nat → State → Except String State
  | 0, _ => .error "Recursion limit reached"
  | fuel + 1, s =>
    match shouldContinue s with
    | .error e => .error e
    | .ok r =>
      let ts := routeTargets r
      if ts.isEmpty then .ok s
      else do
        let ds ← ts.mapM (fun n => runNode env n s)
        let s1 := ds.foldl applyDelta s
        let s2 := applyDelta s1 (callModel env s1)
        runFromRouter env fuel s2

/-- The number of tool-result messages in `msgs` bound to the tool-call id
`i`. -/
def countToolResultsFor (i : String) (msgs : List Message) : Nat :=
  msgs.countP (fun m =>
    match m with
    | .tool tid _ => tid = i
    | _ => false)

/-! ## Helper lemmas -/

theorem jsStr_eq_some {o : Option String} {s : String} (h : jsStr o = some s) :
    o = some s ∧ s ≠ "" := by
  cases o with
  | none => simp [jsStr] at h
  | some t =>
    simp only [jsStr] at h
    by_cases ht : t = ""
    · simp [ht] at h
    · simp only [if_neg ht, Option.some.injEq] at h
      subst h
      exact ⟨rfl, ht⟩

/-! ## Fixtures for the concrete (witness / counterexample) statements -/

/-- Environment for the successful round trip: the snapshot price parses to
190, and the engine answers the preparation tool-result with a
confirmation `purchase_stock` call, then with a plain answer. -/
def c1Env : Env :=
  { chat := fun msgs =>
      if msgs.length = 3 then
        .ai "Please confirm the purchase."
          [⟨some "call2", "purchase_stock", { ticker := some "AAPL" }⟩]
      else .ai "Done. I purchased the stock." []
    webSearch := fun _ => ""
    extractTicker := fun _ => ""
    fetchPriceParsed := fun _ => .ok 190
    runTool := fun _ => "tool output" }

/-- The `purchase_stock` tool call of the round-trip scenario. -/
def c1Call : ToolCall :=
  ⟨some "call1", "purchase_stock",
   { ticker := some "AAPL", quantity := some 5, maxPurchasePrice := some 300 }⟩

/-- Initial state of the round-trip scenario: a user request and the
assistant's `purchase_stock` tool call. -/
def c1Start : State :=
  ⟨[.user "Buy 5 AAPL under 300", .ai "ok" [c1Call]], none⟩

/-- State at the entry of the Execution step of the round trip: the
preparation tool-result and the engine's confirmation message have been
appended and the pending purchase is set. -/
def c1BeforeExec : State :=
  ⟨[.user "Buy 5 AAPL under 300", .ai "ok" [c1Call],
    .tool "call1" (serializeStockPurchase ⟨"AAPL", 5, 300⟩),
    .ai "Please confirm the purchase."
      [⟨some "call2", "purchase_stock", { ticker := some "AAPL" }⟩]],
   some ⟨"AAPL", 5, 300⟩⟩

/-- Final state of the round trip. -/
def c1Final : State :=
  ⟨[.user "Buy 5 AAPL under 300", .ai "ok" [c1Call],
    .tool "call1" (serializeStockPurchase ⟨"AAPL", 5, 300⟩),
    .ai "Please confirm the purchase."
      [⟨some "call2", "purchase_stock", { ticker := some "AAPL" }⟩],
    .tool "call2" "Simulated purchase of 5 of AAPL at <= 300.",
    .ai "Done. I purchased the stock." []],
   none⟩

/-! ## Claims -/

/-- C1: Successful purchase round-trip: for a `purchase_stock` call with
ticker "AAPL", quantity 5, maxPurchasePrice 300 and a fetched snapshot
price of 190, Preparation sets the pending purchase to exactly
`{ticker := "AAPL", quantity := 5, maxPurchasePrice := 300}` and emits a
tool-result carrying the serialized record; the subsequent Execution step
emits the confirmation "Simulated purchase of 5 of AAPL at <= 300."
(mentioning the quantity 5 and the ticker AAPL) and resets the pending
purchase to absent, as the full driver run shows. -/
theorem c1_successful_purchase_round_trip :
    preparePurchaseDetails c1Env c1Start =
      .ok { messages := [.tool "call1" (serializeStockPurchase ⟨"AAPL", 5, 300⟩)],
            requestedStockPurchaseDetails := some (some ⟨"AAPL", 5, 300⟩) }
    ∧ executePurchase c1BeforeExec =
      .ok { messages := [.tool "call2" "Simulated purchase of 5 of AAPL at <= 300."],
            requestedStockPurchaseDetails := some none }
    ∧ runFromRouter c1Env 3 c1Start = .ok c1Final
    ∧ c1Final.requestedStockPurchaseDetails = none
    ∧ Message.tool "call2" "Simulated purchase of 5 of AAPL at <= 300."
        ∈ c1Final.messages :=
  ⟨rfl, rfl, rfl, rfl, by decide⟩

/-- C2: At-most-one pending purchase: whenever the router activates the
Purchase Preparation node, the current state's pending purchase is absent
(a cycle with a pending purchase and outstanding tool calls is routed to
Execution, and one without tool calls ends), so Preparation never
overwrites an existing pending record: the record it writes on validated
success replaces `none`. -/
theorem c2_at_most_one_pending_purchase (s : State) (r : RouteResult)
    (hr : shouldContinue s = .ok r)
    (hmem : "prepare_purchase_details" ∈ routeTargets r) :
    s.requestedStockPurchaseDetails = none := by
  cases ho : s.requestedStockPurchaseDetails with
  | none => rfl
  | some p =>
    exfalso
    cases hL : s.messages.getLast? with
    | none => simp [shouldContinue, hL] at hr
    | some m =>
      simp only [shouldContinue, hL, ho, Option.isSome_some, if_true] at hr
      split at hr
      · obtain rfl : RouteResult.single endNode = r := by simpa using hr
        simp [routeTargets] at hmem
      · obtain rfl : RouteResult.single "execute_purchase" = r := by simpa using hr
        rw [routeTargets, if_neg (by decide)] at hmem
        exact absurd hmem (by decide)

/-- Witness for C2 at a concrete routed state: an assistant message with a
`purchase_stock` call and no pending purchase routes to Preparation, and
the pending purchase is indeed absent there. -/
theorem c2_at_most_one_pending_purchase_witness :
    (State.mk [.ai "m" [⟨some "p1", "purchase_stock", {}⟩]] none
      ).requestedStockPurchaseDetails = none :=
  c2_at_most_one_pending_purchase
    ⟨[.ai "m" [⟨some "p1", "purchase_stock", {}⟩]], none⟩
    (.multi ["prepare_purchase_details"]) rfl (by decide)

/-- C4: Purchase-confirmation priority: if the latest assistant message
carries at least one tool call and a pending purchase exists, the router
returns `execute_purchase`, regardless of the names of the calls. -/
theorem c4_purchase_confirmation_priority (s : State) (c : String)
    (tcs : List ToolCall) (p : StockPurchase)
    (hLast : s.messages.getLast? = some (.ai c tcs))
    (hne : tcs ≠ [])
    (hp : s.requestedStockPurchaseDetails = some p) :
    shouldContinue s = .ok (.single "execute_purchase") := by
  simp only [shouldContinue, hLast, hp, Option.isSome_some, if_true]
  rw [if_neg (by simp [Message.getType, Message.toolCalls, List.isEmpty_iff, hne])]

/-- Witness for C4 at a concrete state whose latest assistant message
requests only non-purchase tools while a purchase is pending: the router
still picks Execution. -/
theorem c4_purchase_confirmation_priority_witness :
    shouldContinue
      ⟨[.ai "m" [⟨some "t1", "price_snapshot", { ticker := some "MSFT" }⟩]],
       some ⟨"AAPL", 1, 100⟩⟩ = .ok (.single "execute_purchase") :=
  c4_purchase_confirmation_priority _ "m"
    [⟨some "t1", "price_snapshot", { ticker := some "MSFT" }⟩]
    ⟨"AAPL", 1, 100⟩ rfl (by decide) rfl

/-- C5 counterexample: the claim says that an assistant message that
claims to request tools with an empty tool-call list fails the turn with
an explicit error.  On the code, the router's first guard
(`!tool_calls?.length`) already returns `END` for an empty list, so the
state below (an AI message whose `tool_calls` array is empty) silently
stops instead of raising: the dedicated empty-list throw further down is
unreachable. -/
theorem c5_counterexample :
    shouldContinue ⟨[.user "u", .ai "I will now call some tools" []], none⟩ =
      .ok (.single endNode) := rfl

/-- C5 (amended): an assistant message whose tool-call list is empty is
treated exactly like a plain answer: the router returns `END` (a silent
transition to STOP); the source's explicit empty-list error is dead
code. -/
theorem c5_empty_tool_call_list_stops (s : State) (c : String)
    (hLast : s.messages.getLast? = some (.ai c [])) :
    shouldContinue s = .ok (.single endNode) := by
  simp only [shouldContinue, hLast]
  rw [if_pos (by simp [Message.toolCalls])]

/-- Witness for the amended C5 at a concrete state. -/
theorem c5_empty_tool_call_list_stops_witness :
    shouldContinue ⟨[.user "q", .ai "calling tools now" []], none⟩ =
      .ok (.single endNode) :=
  c5_empty_tool_call_list_stops _ "calling tools now" rfl

/-- C8: Termination on plain answer: when the latest message is not an
assistant tool-request (not an AI message, or one without tool calls), the
router returns `END` and the driver returns the accumulated state to the
caller unchanged — no node of the graph is entered after this decision. -/
theorem c8_termination_on_plain_answer (env : Env) (s : State) (m : Message)
    (fuel : Nat)
    (hLast : s.messages.getLast? = some m)
    (hno : m.getType ≠ "ai" ∨ m.toolCalls = []) :
    shouldContinue s = .ok (.single endNode)
    ∧ runFromRouter env (fuel + 1) s = .ok s := by
  have hsc : shouldContinue s = .ok (.single endNode) := by
    simp only [shouldContinue, hLast]
    rw [if_pos (by simpa [List.isEmpty_iff] using hno)]
  refine ⟨hsc, ?_⟩
  unfold runFromRouter
  rw [hsc]
  simp [routeTargets]

/-- C7: Price-ceiling rejection: whenever the fetched snapshot price
parses and exceeds the call's `maxPurchasePrice`, Purchase Preparation
emits exactly one tool-result stating the price/ceiling mismatch, bound to
the purchase call's id, and its update leaves the pending purchase absent
(the channel is not written, so no pending record is created), with no
retry. -/
theorem c7_price_ceiling_rejection (env : Env) (msgs : List Message)
    (c : String) (tcs : List ToolCall) (pc : ToolCall) (pid ticker : String)
    (price maxP : Rat) (pending : Option StockPurchase)
    (hLast : msgs.getLast? = some (.ai c tcs))
    (hFind : tcs.find? (fun tc => tc.name = "purchase_stock") = some pc)
    (hId : jsStr pc.id = some pid)
    (hTicker : jsStr pc.args.ticker = some ticker)
    (hFetch : env.fetchPriceParsed ticker = .ok price)
    (hMax : pc.args.maxPurchasePrice = some maxP)
    (hGt : price > maxP) :
    preparePurchaseDetails env ⟨msgs, pending⟩ =
      .ok { messages := [.tool pid
              ("Price " ++ toString price ++ " > max " ++ toString maxP)],
            requestedStockPurchaseDetails := none } := by
  obtain ⟨-, hne⟩ := jsStr_eq_some hTicker
  simp only [preparePurchaseDetails, hLast]
  rw [if_neg (by simp [Message.getType])]
  simp only [Message.toolCalls, hFind, hId, hTicker]
  simp only [prepareResolved, if_neg hne, hFetch, hMax]
  rw [if_pos hGt]

/-- Witness for C7: price 150 against ceiling 100 is rejected and no
pending purchase is created. -/
theorem c7_price_ceiling_rejection_witness :
    preparePurchaseDetails
      { c1Env with fetchPriceParsed := fun _ => .ok 150 }
      ⟨[.user "u", .ai "ok" [⟨some "call1", "purchase_stock",
          { ticker := some "AAPL", maxPurchasePrice := some 100 }⟩]], none⟩ =
      .ok { messages := [.tool "call1" ("Price " ++ toString (150 : Rat)
              ++ " > max " ++ toString (100 : Rat))],
            requestedStockPurchaseDetails := none } :=
  c7_price_ceiling_rejection _ _ "ok"
    [⟨some "call1", "purchase_stock",
      { ticker := some "AAPL", maxPurchasePrice := some 100 }⟩]
    ⟨some "call1", "purchase_stock",
      { ticker := some "AAPL", maxPurchasePrice := some 100 }⟩
    "call1" "AAPL" 150 100 none rfl (by decide) rfl rfl rfl rfl (by norm_num)

/-- The per-call tool-result mapping of the missing-information branch:
when every call's id is truthy, it succeeds and answers each call id. -/
theorem missing_info_mapM (l : List ToolCall)
    (h : ∀ tc ∈ l, jsStr tc.id ≠ none) :
    (l.mapM (fun (tc : ToolCall) =>
      match jsStr tc.id with
      | none => Except.error "Tool call ID missing in mapping"
      | some i => Except.ok (Message.tool i ("Missing info for " ++ tc.name)))
      : Except String (List Message))
    = .ok (l.map (fun tc => Message.tool (tc.id.getD "")
        ("Missing info for " ++ tc.name))) := by
  induction l with
  | nil => rfl
  | cons a l ih =>
    have ha := h a (List.mem_cons_self a l)
    cases hja : jsStr a.id with
    | none => exact absurd hja ha
    | some i =>
      obtain ⟨hid, hine⟩ := jsStr_eq_some hja
      have ihl := ih (fun tc htc => h tc (List.mem_cons_of_mem a htc))
      rw [List.mapM_cons, hja, ihl]
      simp only [List.map_cons, hid, Option.getD_some]
      rfl

/-- C9: Missing-identity clarification: when the `purchase_stock` call has
neither a truthy `ticker` nor a truthy `companyName`, Purchase Preparation
emits one tool-result per outstanding call id asking for the missing
information, plus an assistant clarification message; it creates no
pending purchase and does not fail the turn (the result is `ok`, not
`error`). -/
theorem c9_missing_identity_clarification (env : Env) (msgs : List Message)
    (c : String) (tcs : List ToolCall) (pc : ToolCall)
    (pending : Option StockPurchase)
    (hLast : msgs.getLast? = some (.ai c tcs))
    (hFind : tcs.find? (fun tc => tc.name = "purchase_stock") = some pc)
    (hids : ∀ tc ∈ tcs, jsStr tc.id ≠ none)
    (hTicker : jsStr pc.args.ticker = none)
    (hCompany : jsStr pc.args.companyName = none) :
    preparePurchaseDetails env ⟨msgs, pending⟩ =
      .ok { messages := tcs.map (fun tc => .tool (tc.id.getD "")
              ("Missing info for " ++ tc.name))
              ++ [.ai "Ticker or company name required." []],
            requestedStockPurchaseDetails := none } := by
  have hpcmem : pc ∈ tcs := List.mem_of_find?_eq_some hFind
  obtain ⟨pid, hpid⟩ : ∃ i, jsStr pc.id = some i :=
    Option.ne_none_iff_exists'.mp (hids pc hpcmem)
  simp only [preparePurchaseDetails, hLast]
  rw [if_neg (by simp [Message.getType])]
  simp only [Message.toolCalls, hFind, hpid, hTicker, hCompany]
  rw [missing_info_mapM tcs hids]
  rfl

/-- Witness for C9: a message with an argument-less `purchase_stock` call
and a second tool call gets a tool-result per call id and a clarification,
without failing the turn. -/
theorem c9_missing_identity_clarification_witness :
    preparePurchaseDetails c1Env
      ⟨[.user "u", .ai "m" [⟨some "p1", "purchase_stock", {}⟩,
          ⟨some "t1", "price_snapshot", { ticker := some "MSFT" }⟩]], none⟩ =
      .ok { messages := [.tool "p1" "Missing info for purchase_stock",
                         .tool "t1" "Missing info for price_snapshot",
                         .ai "Ticker or company name required." []],
            requestedStockPurchaseDetails := none } :=
  c9_missing_identity_clarification c1Env _ "m"
    [⟨some "p1", "purchase_stock", {}⟩,
     ⟨some "t1", "price_snapshot", { ticker := some "MSFT" }⟩]
    ⟨some "p1", "purchase_stock", {}⟩ none rfl (by decide) (by decide) rfl rfl

/-- C10: Missing `maxPurchasePrice` is fatal: the registered
`purchase_stock` tool schema marks `maxPurchasePrice` optional, yet when
the call omits it and Preparation has resolved a ticker and parsed a
numeric price, the node throws a hard error (fatal to the turn) instead of
emitting a clarification or error tool-result — unlike the non-fatal
missing ticker/company path. -/
theorem c10_missing_max_price_fatal (env : Env) (msgs : List Message)
    (c : String) (tcs : List ToolCall) (pc : ToolCall) (pid ticker : String)
    (price : Rat) (pending : Option StockPurchase)
    (hLast : msgs.getLast? = some (.ai c tcs))
    (hFind : tcs.find? (fun tc => tc.name = "purchase_stock") = some pc)
    (hId : jsStr pc.id = some pid)
    (hTicker : jsStr pc.args.ticker = some ticker)
    (hFetch : env.fetchPriceParsed ticker = .ok price)
    (hMax : pc.args.maxPurchasePrice = none) :
    purchaseStockFieldOptional "maxPurchasePrice" = true
    ∧ preparePurchaseDetails env ⟨msgs, pending⟩ =
      .error "maxPurchasePrice is undefined in tool call args" := by
  refine ⟨rfl, ?_⟩
  obtain ⟨-, hne⟩ := jsStr_eq_some hTicker
  simp only [preparePurchaseDetails, hLast]
  rw [if_neg (by simp [Message.getType])]
  simp only [Message.toolCalls, hFind, hId, hTicker]
  simp only [prepareResolved, if_neg hne, hFetch, hMax]

/-- Witness for C10: a call with a ticker and a parsed price of 10 but no
`maxPurchasePrice` aborts the turn with the hard error. -/
theorem c10_missing_max_price_fatal_witness :
    purchaseStockFieldOptional "maxPurchasePrice" = true
    ∧ preparePurchaseDetails
        { c1Env with fetchPriceParsed := fun _ => .ok 10 }
        ⟨[.ai "ok" [⟨some "c1", "purchase_stock",
            { ticker := some "AAPL", quantity := some 2 }⟩]], none⟩ =
      .error "maxPurchasePrice is undefined in tool call args" :=
  c10_missing_max_price_fatal _ _ "ok"
    [⟨some "c1", "purchase_stock", { ticker := some "AAPL", quantity := some 2 }⟩]
    ⟨some "c1", "purchase_stock", { ticker := some "AAPL", quantity := some 2 }⟩
    "c1" "AAPL" 10 none rfl (by decide) rfl rfl rfl rfl

/-! ### Counting and fan-out infrastructure for the tool-result
completeness claim -/

theorem mapM_one_ok {f : String → Except String Delta} {a : String}
    {da : Delta} (ha : f a = .ok da) :
    ([a].mapM f : Except String (List Delta)) = .ok [da] := by
  simp only [List.mapM_cons, List.mapM_nil, ha]
  rfl

theorem mapM_two_ok {f : String → Except String Delta} {a b : String}
    {da db : Delta} (ha : f a = .ok da) (hb : f b = .ok db) :
    ([a, b].mapM f : Except String (List Delta)) = .ok [da, db] := by
  simp only [List.mapM_cons, List.mapM_nil, ha, hb]
  rfl

theorem mapM_cons_err {f : String → Except String Delta} {a : String}
    {l : List String} {e : String} (ha : f a = .error e) :
    ((a :: l).mapM f : Except String (List Delta)) = .error e := by
  simp only [List.mapM_cons, ha]
  rfl

theorem mapM_two_snd_err {f : String → Except String Delta} {a b : String}
    {da : Delta} {e : String} (ha : f a = .ok da) (hb : f b = .error e) :
    ([a, b].mapM f : Except String (List Delta)) = .error e := by
  simp only [List.mapM_cons, List.mapM_nil, ha, hb]
  rfl

theorem except_ok_bind {α β : Type} (a : α) (g : α → Except String β) :
    ((Except.ok a : Except String α) >>= g) = g a := rfl

theorem except_pure {α : Type} (a : α) :
    (pure a : Except String α) = .ok a := rfl

theorem runNode_tools (env : Env) (s : State) :
    runNode env "tools" s = .ok (toolNodeRun env s) := rfl

theorem runNode_prepare (env : Env) (s : State) :
    runNode env "prepare_purchase_details" s = preparePurchaseDetails env s := rfl

theorem countToolResultsFor_append (i : String) (l1 l2 : List Message) :
    countToolResultsFor i (l1 ++ l2) =
      countToolResultsFor i l1 + countToolResultsFor i l2 :=
  List.countP_append _ _ _

theorem countToolResultsFor_tool (i pid content : String) :
    countToolResultsFor i [.tool pid content] = if pid = i then 1 else 0 := by
  simp [countToolResultsFor, List.countP_cons]

theorem countToolResultsFor_tool_ai (i pid content c : String)
    (tcs : List ToolCall) :
    countToolResultsFor i [.tool pid content, .ai c tcs] =
      if pid = i then 1 else 0 := by
  simp [countToolResultsFor, List.countP_cons]

/-- A list of length at most one cannot hold two different elements. -/
theorem length_le_one_unique {α : Type} {l : List α} {a b : α}
    (hlen : l.length ≤ 1) (ha : a ∈ l) (hb : b ∈ l) : a = b := by
  cases l with
  | nil => simp at ha
  | cons x xs =>
    cases xs with
    | nil =>
      simp only [List.mem_singleton] at ha hb
      rw [ha, hb]
    | cons y ys => simp at hlen

/-- A duplicate-free list whose elements all equal `a`, containing `a`, is
the singleton `[a]`. -/
theorem nodup_all_eq {α : Type} {l : List α} {a : α} (hnd : l.Nodup)
    (h : ∀ x ∈ l, x = a) (ha : a ∈ l) : l = [a] := by
  cases l with
  | nil => simp at ha
  | cons x xs =>
    have hx : x = a := h x (List.mem_cons_self x xs)
    cases xs with
    | nil => rw [hx]
    | cons y ys =>
      have hy : y = a := h y (by simp)
      rw [List.nodup_cons] at hnd
      exact absurd (by rw [hx, hy] : x = y) (fun hxy => hnd.1 (hxy ▸ by simp))

/-- Deduplicating a nonempty constant list yields the singleton. -/
theorem dedup_const {l : List String} {a : String} (hne : l ≠ [])
    (h : ∀ x ∈ l, x = a) : l.dedup = [a] := by
  have hmem : a ∈ l := by
    cases l with
    | nil => exact absurd rfl hne
    | cons x xs => exact h x (List.mem_cons_self x xs) ▸ List.mem_cons_self x xs
  exact nodup_all_eq (List.nodup_dedup l)
    (fun x hx => h x (List.mem_dedup.mp hx)) (List.mem_dedup.mpr hmem)

/-- A duplicate-free list over a two-element alphabet containing both
letters is one of the two orderings of the pair. -/
theorem nodup_subset_pair {l : List String} {a b : String}
    (hnd : l.Nodup) (hab : a ≠ b)
    (hsub : ∀ x ∈ l, x = a ∨ x = b) (ha : a ∈ l) (hb : b ∈ l) :
    l = [a, b] ∨ l = [b, a] := by
  cases l with
  | nil => simp at ha
  | cons x xs =>
    cases xs with
    | nil =>
      simp only [List.mem_singleton] at ha hb
      exact absurd (ha.trans hb.symm) hab
    | cons y ys =>
      cases ys with
      | nil =>
        rw [List.nodup_cons] at hnd
        have hxy : x ≠ y := fun hxy => hnd.1 (hxy ▸ by simp)
        rcases hsub x (by simp) with rfl | rfl
        · rcases hsub y (by simp) with hya | rfl
          · exact absurd hya.symm hxy
          · exact Or.inl rfl
        · rcases hsub y (by simp) with rfl | hyb
          · exact Or.inr rfl
          · exact absurd hyb.symm hxy
      | cons z zs =>
        exfalso
        rw [List.nodup_cons] at hnd
        have hnd2 := hnd.2
        rw [List.nodup_cons] at hnd2
        have hxy : x ≠ y := fun hxy => hnd.1 (hxy ▸ by simp)
        have hxz : x ≠ z := fun hxz => hnd.1 (hxz ▸ by simp)
        have hyz : y ≠ z := fun hyz => hnd2.1 (hyz ▸ by simp)
        rcases hsub x (by simp) with rfl | rfl <;>
          rcases hsub y (by simp) with h2 | h2 <;>
          rcases hsub z (by simp) with h3 | h3 <;>
          simp_all

/-- Deduplicating a list over the two-letter alphabet `{a, b}` that
contains both letters yields the pair in one of its two orders. -/
theorem dedup_pair_eq {l : List String} {a b : String} (hab : a ≠ b)
    (hsub : ∀ x ∈ l, x = a ∨ x = b) (ha : a ∈ l) (hb : b ∈ l) :
    l.dedup = [a, b] ∨ l.dedup = [b, a] :=
  nodup_subset_pair (List.nodup_dedup l) hab
    (fun x hx => hsub x (List.mem_dedup.mp hx))
    (List.mem_dedup.mpr ha) (List.mem_dedup.mpr hb)

/-- In a duplicate-free list, a member occurs exactly once (as a `countP`
over propositional equality). -/
theorem countP_eq_one_of_nodup {α : Type} [DecidableEq α] {L : List α}
    {a : α} (hnd : L.Nodup) (ha : a ∈ L) :
    L.countP (fun o => o = a) = 1 := by
  induction L with
  | nil => simp at ha
  | cons x xs ih =>
    rw [List.nodup_cons] at hnd
    rw [List.countP_cons]
    rcases List.mem_cons.mp ha with rfl | hmem
    · have h0 : xs.countP (fun o => decide (o = a)) = 0 :=
        List.countP_eq_zero.mpr (fun b hb => by
          simp only [decide_eq_true_eq]
          exact fun hba => hnd.1 (hba ▸ hb))
      simp [h0]
    · have h0 := ih hnd.2 hmem
      have hxa : ¬(x = a) := fun hxa => hnd.1 (hxa ▸ hmem)
      rw [h0]
      simp [hxa]

/-- Over calls with truthy, duplicate-free ids, the id-projection count of
a member call's id is one. -/
theorem countP_ids_eq_one {l : List ToolCall} {tc : ToolCall} {i : String}
    (hnodup : (l.map ToolCall.id).Nodup)
    (hids : ∀ x ∈ l, ∃ j, x.id = some j ∧ j ≠ "")
    (hmem : tc ∈ l) (hid : tc.id = some i) :
    l.countP (fun x => x.id.getD "" = i) = 1 := by
  have key : ∀ x ∈ l,
      (decide (x.id.getD "" = i) = true) ↔ (decide (x.id = some i) = true) := by
    intro x hx
    obtain ⟨j, hj, -⟩ := hids x hx
    simp [hj]
  calc l.countP (fun x => x.id.getD "" = i)
      = l.countP (fun x => x.id = some i) := List.countP_congr key
    _ = (l.map ToolCall.id).countP (fun o => o = some i) := by
        rw [List.countP_map]; rfl
    _ = 1 := countP_eq_one_of_nodup hnodup
        (hid ▸ List.mem_map_of_mem ToolCall.id hmem)

/-- Over calls with truthy ids none of which is `some i`, the
id-projection count of `i` is zero. -/
theorem countP_ids_eq_zero {l : List ToolCall} {i : String}
    (hids : ∀ x ∈ l, ∃ j, x.id = some j ∧ j ≠ "")
    (h : ∀ x ∈ l, x.id ≠ some i) :
    l.countP (fun x => x.id.getD "" = i) = 0 := by
  rw [List.countP_eq_zero]
  intro x hx
  obtain ⟨j, hj, -⟩ := hids x hx
  simp only [hj, Option.getD_some, decide_eq_true_eq]
  intro hji
  exact h x hx (by rw [hj, hji])

/-- Every successful branch of the resolved-ticker tail emits exactly one
tool-result, bound to the purchase call's id. -/
theorem prepareResolved_count (env : Env) (pid ticker : String)
    (args : ToolArgs) (d : Delta) (i : String)
    (hok : prepareResolved env pid ticker args = .ok d) :
    countToolResultsFor i d.messages = if pid = i then 1 else 0 := by
  simp only [prepareResolved] at hok
  split at hok
  · injection hok with h
    rw [← h]
    exact countToolResultsFor_tool_ai i pid _ _ []
  · split at hok
    · injection hok with h
      rw [← h]
      exact countToolResultsFor_tool i pid _
    · split at hok
      · exact absurd hok (by simp)
      · split at hok
        · injection hok with h
          rw [← h]
          exact countToolResultsFor_tool i pid _
        · injection hok with h
          rw [← h]
          exact countToolResultsFor_tool i pid _

/-- Every successful branch of Purchase Preparation emits exactly one
tool-result bound to the purchase call's id — provided that, in the
missing-information branch (which answers every call id of the message),
the purchase call is the only call. -/
theorem preparePurchaseDetails_count (env : Env) (msgs : List Message)
    (c : String) (tcs : List ToolCall) (pc : ToolCall) (pid : String)
    (pending : Option StockPurchase) (d : Delta) (i : String)
    (hLast : msgs.getLast? = some (.ai c tcs))
    (hFind : tcs.find? (fun tc => tc.name = "purchase_stock") = some pc)
    (hpid : jsStr pc.id = some pid)
    (honly : jsStr pc.args.ticker = none → jsStr pc.args.companyName = none →
      tcs = [pc])
    (hok : preparePurchaseDetails env ⟨msgs, pending⟩ = .ok d) :
    countToolResultsFor i d.messages = if pid = i then 1 else 0 := by
  simp only [preparePurchaseDetails, hLast] at hok
  rw [if_neg (by simp [Message.getType])] at hok
  simp only [Message.toolCalls, hFind, hpid] at hok
  cases ht : jsStr pc.args.ticker with
  | some t =>
    rw [ht] at hok
    exact prepareResolved_count env pid t pc.args d i hok
  | none =>
    rw [ht] at hok
    cases hc : jsStr pc.args.companyName with
    | some cn =>
      rw [hc] at hok
      exact prepareResolved_count env pid _ pc.args d i hok
    | none =>
      rw [hc] at hok
      obtain ⟨hid, -⟩ := jsStr_eq_some hpid
      have htcs := honly ht hc
      rw [htcs] at hok
      rw [missing_info_mapM [pc] (by
        intro tc htc
        rw [List.mem_singleton] at htc
        rw [htc, hpid]
        exact Option.some_ne_none pid)] at hok
      simp only [Except.map, List.map_cons, List.map_nil, hid,
        Option.getD_some] at hok
      injection hok with h
      rw [← h]
      exact countToolResultsFor_tool_ai i pid _ _ []

/-- The tools node answers exactly the non-purchase calls of the consumed
message: its count of results for an id is the id-projection count over
the filtered calls. -/
theorem toolNodeRun_count (env : Env) (msgs : List Message) (c : String)
    (tcs : List ToolCall) (pending : Option StockPurchase) (i : String)
    (hLast : msgs.getLast? = some (.ai c tcs)) :
    countToolResultsFor i (toolNodeRun env ⟨msgs, pending⟩).messages =
      (tcs.filter (fun tc => tc.name ≠ "purchase_stock")).countP
        (fun tc => tc.id.getD "" = i) := by
  simp only [toolNodeRun, hLast, Message.toolCalls, countToolResultsFor,
    List.countP_map]
  rfl

/-- With no pending purchase and a nonempty tool-call list, the router
fans out over the calls by name. -/
theorem shouldContinue_fanout (msgs : List Message) (c : String)
    (tcs : List ToolCall) (hLast : msgs.getLast? = some (.ai c tcs))
    (hne : tcs ≠ []) :
    shouldContinue ⟨msgs, none⟩ = .ok (.multi (tcs.map (fun tc =>
      if tc.name = "purchase_stock" then "prepare_purchase_details"
      else "tools"))) := by
  simp only [shouldContinue, hLast]
  rw [if_neg (by simp [Message.getType, Message.toolCalls, List.isEmpty_iff, hne])]
  rw [if_neg (by simp)]
  rw [if_neg (by simp [Message.toolCalls, List.isEmpty_iff, hne])]
  rfl

/-- One cycle's appended messages, once the router's value is known. -/
theorem cycleMessages_eq (env : Env) (s : State) (r : RouteResult)
    (hsc : shouldContinue s = .ok r) :
    cycleMessages env s =
      ((routeTargets r).mapM (fun n => runNode env n s) >>=
        fun ds => pure ((ds.map (·.messages)).flatten)) := by
  simp only [cycleMessages, hsc]
  rfl

/-- When no message of the (reversed) history carries any tool call, the
backward scan of `executePurchase` finds no candidate call id. -/
theorem scanForRelevant_eq_none (t : String) (l : List Message)
    (h : ∀ m ∈ l, m.toolCalls = []) : scanForRelevant t l = none := by
  induction l with
  | nil => rfl
  | cons m rest ih =>
    have hm := h m (List.mem_cons_self m rest)
    have ihr := ih (fun x hx => h x (List.mem_cons_of_mem m hx))
    cases m with
    | user c => simpa [scanForRelevant] using ihr
    | tool i c => simpa [scanForRelevant] using ihr
    | ai c tcs =>
      have htcs : tcs = [] := by simpa [Message.toolCalls] using hm
      subst htcs
      simpa [scanForRelevant] using ihr

/-- C6 counterexample: the claim says Execution fails fatally when no
purchase-named call exists in history, "rather than binding to some other
call".  On the code, the backward scan also accepts any call whose
`ticker` argument equals the pending ticker: in the state below no message
carries a `purchase_stock` call, yet Execution succeeds and binds its
confirmation to the `price_snapshot` call `id9`. -/
theorem c6_counterexample :
    (∀ m ∈ (State.mk
        [.user "u", .ai "checking"
          [⟨some "id9", "price_snapshot", { ticker := some "AAPL" }⟩]]
        (some ⟨"AAPL", 1, 100⟩)).messages,
      ∀ tc ∈ m.toolCalls, tc.name ≠ "purchase_stock")
    ∧ executePurchase
        ⟨[.user "u", .ai "checking"
            [⟨some "id9", "price_snapshot", { ticker := some "AAPL" }⟩]],
         some ⟨"AAPL", 1, 100⟩⟩ =
      .ok { messages := [.tool "id9" "Simulated purchase of 1 of AAPL at <= 100."],
            requestedStockPurchaseDetails := some none } :=
  ⟨by decide, rfl⟩

/-- When no call of any message is purchase-named or ticker-matching, the
backward scan finds no candidate call id. -/
theorem scanForRelevant_eq_none_of_nomatch (t : String) (l : List Message)
    (h : ∀ m ∈ l, ∀ tc ∈ m.toolCalls,
      ¬(tc.name = "purchase_stock" ∨ tc.args.ticker = some t)) :
    scanForRelevant t l = none := by
  induction l with
  | nil => rfl
  | cons m rest ih =>
    have ihr := ih (fun x hx tc htc => h x (List.mem_cons_of_mem m hx) tc htc)
    cases m with
    | user c => simpa [scanForRelevant] using ihr
    | tool i c => simpa [scanForRelevant] using ihr
    | ai c tcs =>
      have hfind : tcs.find? (fun (tc : ToolCall) =>
          tc.name == "purchase_stock" || tc.args.ticker == some t) = none := by
        rw [List.find?_eq_none]
        intro tc htc
        have hno := h (Message.ai c tcs) (List.mem_cons_self _ rest) tc
          (by simpa [Message.toolCalls] using htc)
        simp only [Bool.or_eq_true, beq_iff_eq]
        exact hno
      simp only [scanForRelevant, hfind]
      exact ihr

/-- The backward search for "the most recent assistant message with tool
calls" skips every message without them and stops at the first assistant
message that carries some. -/
theorem find?_ai_with_calls (l1 l2 : List Message) (c : String)
    (tcs : List ToolCall)
    (h1 : ∀ m ∈ l1, m.getType ≠ "ai" ∨ m.toolCalls = [])
    (hne : tcs ≠ []) :
    (l1 ++ Message.ai c tcs :: l2).find?
      (fun m => m.getType = "ai" ∧ ¬ m.toolCalls.isEmpty) =
      some (Message.ai c tcs) := by
  induction l1 with
  | nil =>
    rw [List.nil_append]
    exact List.find?_cons_of_pos _
      (by simp [Message.getType, Message.toolCalls, List.isEmpty_iff, hne])
  | cons m l1 ih =>
    have hm := h1 m (List.mem_cons_self m l1)
    rw [List.cons_append]
    rw [List.find?_cons_of_neg _
      (by rcases hm with h | h <;> simp [h, List.isEmpty_iff])]
    exact ih (fun x hx => h1 x (List.mem_cons_of_mem m hx))

/-- Under a history with no purchase-named or ticker-matching call
anywhere, `executePurchase` is decided entirely by the id of the *first*
tool call of the most recent assistant message that carries tool calls:
truthy binds the confirmation, falsy is fatal. -/
theorem executePurchase_fallback (s : State) (p : StockPurchase)
    (pre suf : List Message) (c : String) (tc0 : ToolCall)
    (rest : List ToolCall)
    (hp : s.requestedStockPurchaseDetails = some p)
    (hmsgs : s.messages = pre ++ Message.ai c (tc0 :: rest) :: suf)
    (hsuf : ∀ m ∈ suf, m.getType ≠ "ai" ∨ m.toolCalls = [])
    (hnomatch : ∀ m ∈ s.messages, ∀ tc ∈ m.toolCalls,
      ¬(tc.name = "purchase_stock" ∨ tc.args.ticker = some p.ticker)) :
    executePurchase s =
      match jsStr tc0.id with
      | none => .error "Cannot find tool_call_id for purchase response"
      | some j => .ok
          { messages := [.tool j
              ("Simulated purchase of " ++ toString p.quantity ++ " of "
                ++ p.ticker ++ " at <= " ++ toString p.maxPurchasePrice ++ ".")],
            requestedStockPurchaseDetails := some none } := by
  have hscan : scanForRelevant p.ticker s.messages.reverse = none :=
    scanForRelevant_eq_none_of_nomatch p.ticker s.messages.reverse
      (fun m hm => hnomatch m (List.mem_reverse.mp hm))
  have hrev : s.messages.reverse =
      suf.reverse ++ Message.ai c (tc0 :: rest) :: pre.reverse := by
    rw [hmsgs]
    simp [List.reverse_append]
  rw [hrev] at hscan
  have hfb := find?_ai_with_calls suf.reverse pre.reverse c (tc0 :: rest)
    (fun m hm => hsuf m (List.mem_reverse.mp hm)) (by simp)
  cases hj : jsStr tc0.id with
  | none =>
    simp only [executePurchase, hp, hrev, hscan, hfb]
    simp only [Message.toolCalls, List.head?_cons, Option.some_bind, hj]
  | some j =>
    simp only [executePurchase, hp, hrev, hscan, hfb]
    simp only [Message.toolCalls, List.head?_cons, Option.some_bind, hj]

/-- C6 (amended): Purchase Execution binds its confirmation to the first
matching call — purchase-named or with a `ticker` argument equal to the
pending ticker — of the newest assistant message when that call's id is
truthy, so a missing purchase-named call does not by itself fail the step
(the counterexample shows the ticker-match binding).  When no call in
history matches at all, Execution consults only the *first* tool call of
the most recent assistant message that carries tool calls: a truthy id
there receives the confirmation and the pending record is cleared; a
falsy id there is fatal ("Cannot find tool_call_id for purchase
response") even if another call of the same message has a truthy id; and
with no call-carrying assistant message at all the step is likewise
fatal. -/
theorem c6_execute_purchase_binding_amended :
    (∀ (s : State) (p : StockPurchase) (c : String) (tcs : List ToolCall)
        (mc : ToolCall) (j : String),
      s.requestedStockPurchaseDetails = some p →
      s.messages.getLast? = some (.ai c tcs) →
      tcs.find? (fun (tc : ToolCall) => tc.name == "purchase_stock"
        || tc.args.ticker == some p.ticker) = some mc →
      jsStr mc.id = some j →
      executePurchase s = .ok
        { messages := [.tool j
            ("Simulated purchase of " ++ toString p.quantity ++ " of "
              ++ p.ticker ++ " at <= " ++ toString p.maxPurchasePrice ++ ".")],
          requestedStockPurchaseDetails := some none })
    ∧ (∀ (s : State) (p : StockPurchase) (pre suf : List Message)
        (c : String) (tc0 : ToolCall) (rest : List ToolCall) (j : String),
      s.requestedStockPurchaseDetails = some p →
      s.messages = pre ++ Message.ai c (tc0 :: rest) :: suf →
      (∀ m ∈ suf, m.getType ≠ "ai" ∨ m.toolCalls = []) →
      (∀ m ∈ s.messages, ∀ tc ∈ m.toolCalls,
        ¬(tc.name = "purchase_stock" ∨ tc.args.ticker = some p.ticker)) →
      jsStr tc0.id = some j →
      executePurchase s = .ok
        { messages := [.tool j
            ("Simulated purchase of " ++ toString p.quantity ++ " of "
              ++ p.ticker ++ " at <= " ++ toString p.maxPurchasePrice ++ ".")],
          requestedStockPurchaseDetails := some none })
    ∧ (∀ (s : State) (p : StockPurchase) (pre suf : List Message)
        (c : String) (tc0 : ToolCall) (rest : List ToolCall),
      s.requestedStockPurchaseDetails = some p →
      s.messages = pre ++ Message.ai c (tc0 :: rest) :: suf →
      (∀ m ∈ suf, m.getType ≠ "ai" ∨ m.toolCalls = []) →
      (∀ m ∈ s.messages, ∀ tc ∈ m.toolCalls,
        ¬(tc.name = "purchase_stock" ∨ tc.args.ticker = some p.ticker)) →
      jsStr tc0.id = none →
      executePurchase s = .error "Cannot find tool_call_id for purchase response")
    ∧ (∀ (s : State) (p : StockPurchase),
      s.requestedStockPurchaseDetails = some p →
      (∀ m ∈ s.messages, m.toolCalls = []) →
      executePurchase s = .error "Cannot find tool_call_id for purchase response") := by
  refine ⟨?_, ?_, ?_, ?_⟩
  · intro s p c tcs mc j hp hLast hfind hjid
    cases hrv : s.messages.reverse with
    | nil =>
      exfalso
      have h0 := List.head?_reverse s.messages
      rw [hrv, hLast] at h0
      simp at h0
    | cons m0 t =>
      have h0 := List.head?_reverse s.messages
      rw [hrv, hLast] at h0
      have hm0 : m0 = Message.ai c tcs := by simpa using h0
      subst hm0
      simp only [executePurchase, hp, hrv]
      simp only [scanForRelevant, hfind, hjid]
  · intro s p pre suf c tc0 rest j hp hmsgs hsuf hnomatch hj
    rw [executePurchase_fallback s p pre suf c tc0 rest hp hmsgs hsuf hnomatch,
      hj]
  · intro s p pre suf c tc0 rest hp hmsgs hsuf hnomatch hj
    rw [executePurchase_fallback s p pre suf c tc0 rest hp hmsgs hsuf hnomatch,
      hj]
  · intro s p hp h
    have hscan : scanForRelevant p.ticker s.messages.reverse = none :=
      scanForRelevant_eq_none _ _ (fun m hm => h m (List.mem_reverse.mp hm))
    simp only [executePurchase, hp, hscan]
    rw [List.find?_eq_none.mpr ?_]
    intro m hm
    simp [h m (List.mem_reverse.mp hm)]

/-- Witness for the amended C6, exercising all four clauses: the scan
binds to the newest purchase-named call; under no match the fallback binds
to a truthy first-call id; a falsy first-call id is fatal even though the
second call's id `c2` is truthy; and a call-free history is fatal. -/
theorem c6_execute_purchase_binding_amended_witness :
    executePurchase ⟨[.ai "m" [⟨some "pc1", "purchase_stock", {}⟩]],
        some ⟨"AAPL", 2, 50⟩⟩ =
      .ok { messages := [.tool "pc1" "Simulated purchase of 2 of AAPL at <= 50."],
            requestedStockPurchaseDetails := some none }
    ∧ executePurchase ⟨[.ai "m" [⟨some "c1", "web_search",
          { ticker := some "Y" }⟩]], some ⟨"AAPL", 1, 100⟩⟩ =
      .ok { messages := [.tool "c1" "Simulated purchase of 1 of AAPL at <= 100."],
            requestedStockPurchaseDetails := some none }
    ∧ executePurchase ⟨[.ai "m" [⟨some "", "web_search", { ticker := some "Y" }⟩,
          ⟨some "c2", "income_statements", { ticker := some "Z" }⟩]],
        some ⟨"AAPL", 1, 100⟩⟩ =
      .error "Cannot find tool_call_id for purchase response"
    ∧ executePurchase ⟨[.user "u", .ai "no calls here" []], some ⟨"AAPL", 1, 100⟩⟩ =
      .error "Cannot find tool_call_id for purchase response" :=
  ⟨c6_execute_purchase_binding_amended.1
      ⟨[.ai "m" [⟨some "pc1", "purchase_stock", {}⟩]], some ⟨"AAPL", 2, 50⟩⟩
      ⟨"AAPL", 2, 50⟩ "m" [⟨some "pc1", "purchase_stock", {}⟩]
      ⟨some "pc1", "purchase_stock", {}⟩ "pc1" rfl rfl rfl rfl,
   c6_execute_purchase_binding_amended.2.1
      ⟨[.ai "m" [⟨some "c1", "web_search", { ticker := some "Y" }⟩]],
        some ⟨"AAPL", 1, 100⟩⟩
      ⟨"AAPL", 1, 100⟩ [] [] "m"
      ⟨some "c1", "web_search", { ticker := some "Y" }⟩ [] "c1"
      rfl rfl (by decide) (by decide) rfl,
   c6_execute_purchase_binding_amended.2.2.1
      ⟨[.ai "m" [⟨some "", "web_search", { ticker := some "Y" }⟩,
          ⟨some "c2", "income_statements", { ticker := some "Z" }⟩]],
        some ⟨"AAPL", 1, 100⟩⟩
      ⟨"AAPL", 1, 100⟩ [] [] "m"
      ⟨some "", "web_search", { ticker := some "Y" }⟩
      [⟨some "c2", "income_statements", { ticker := some "Z" }⟩]
      rfl rfl (by decide) (by decide) rfl,
   c6_execute_purchase_binding_amended.2.2.2
      ⟨[.user "u", .ai "no calls here" []], some ⟨"AAPL", 1, 100⟩⟩
      ⟨"AAPL", 1, 100⟩ rfl (by decide)⟩

/-- C3 counterexample: the claim asserts exactly one tool-result per
consumed tool-call id in every branch of Purchase Preparation.  In a cycle
whose assistant message carries both an argument-less `purchase_stock`
call (`p1`) and a `price_snapshot` call (`t1`), the fan-out activates both
Preparation and the tools node; Preparation's missing-information branch
answers every call id of the message — including `t1`, which the tools
node also answers — so `t1` receives two tool-results in one cycle, not
exactly one. -/
theorem c3_counterexample :
    cycleMessages c1Env
      ⟨[.user "u", .ai "m" [⟨some "p1", "purchase_stock", {}⟩,
          ⟨some "t1", "price_snapshot", { ticker := some "MSFT" }⟩]], none⟩ =
      .ok [.tool "p1" "Missing info for purchase_stock",
           .tool "t1" "Missing info for price_snapshot",
           .ai "Ticker or company name required." [],
           .tool "t1" "tool output"]
    ∧ countToolResultsFor "t1"
        [.tool "p1" "Missing info for purchase_stock",
         .tool "t1" "Missing info for price_snapshot",
         .ai "Ticker or company name required." [],
         .tool "t1" "tool output"] = 2 :=
  ⟨rfl, rfl⟩

/-- C3 (amended): in a cycle consumed with no pending purchase, whose
assistant message's tool calls carry truthy, pairwise-distinct ids,
contain at most one purchase-named call, and — whenever that call lacks
both a truthy ticker and a truthy company name (the branch of Preparation
that answers every id) — no other calls, every consumed tool-call id
receives exactly one tool-result before the next reasoning step, provided
the cycle succeeds. -/
theorem c3_tool_result_completeness_amended (env : Env) (msgs : List Message)
    (c : String) (tcs : List ToolCall)
    (hLast : msgs.getLast? = some (.ai c tcs))
    (hne : tcs ≠ [])
    (hids : ∀ tc ∈ tcs, ∃ j, tc.id = some j ∧ j ≠ "")
    (hnodup : (tcs.map ToolCall.id).Nodup)
    (honep : (tcs.filter (fun tc => tc.name = "purchase_stock")).length ≤ 1)
    (hmissing : ∀ pc, tcs.find? (fun tc => tc.name = "purchase_stock") = some pc →
      jsStr pc.args.ticker = none → jsStr pc.args.companyName = none → tcs = [pc])
    (out : List Message)
    (hok : cycleMessages env ⟨msgs, none⟩ = .ok out)
    (tc : ToolCall) (htc : tc ∈ tcs) (i : String) (hid : tc.id = some i) :
    countToolResultsFor i out = 1 := by
  have hsc := shouldContinue_fanout msgs c tcs hLast hne
  rw [cycleMessages_eq env _ _ hsc] at hok
  simp only [routeTargets] at hok
  cases hfind : tcs.find? (fun tc => tc.name = "purchase_stock") with
  | none =>
    have hall : ∀ x ∈ tcs, ¬(x.name = "purchase_stock") := by
      intro x hx
      simpa using List.find?_eq_none.mp hfind x hx
    have hded : (tcs.map (fun tc => if tc.name = "purchase_stock"
        then "prepare_purchase_details" else "tools")).dedup = ["tools"] := by
      apply dedup_const
      · simpa using hne
      · intro x hx
        obtain ⟨tc', htc', rfl⟩ := List.mem_map.mp hx
        exact if_neg (hall tc' htc')
    rw [hded, mapM_one_ok (runNode_tools env _)] at hok
    simp only [except_ok_bind, List.map_cons, List.map_nil, List.flatten_cons,
      List.flatten_nil, List.append_nil, except_pure, Except.ok.injEq] at hok
    rw [← hok]
    rw [toolNodeRun_count env msgs c tcs none i hLast]
    rw [List.filter_eq_self.mpr (by
      intro a ha
      simpa using hall a ha)]
    exact countP_ids_eq_one hnodup hids htc hid
  | some pc =>
    have hpcmem := List.mem_of_find?_eq_some hfind
    have hpcname : pc.name = "purchase_stock" := by
      simpa using List.find?_some hfind
    obtain ⟨pid, hpcid, hpidne⟩ := hids pc hpcmem
    have hjspid : jsStr pc.id = some pid := by
      rw [hpcid]
      simp [jsStr, hpidne]
    have hinj := List.inj_on_of_nodup_map hnodup
    have huniq : ∀ x ∈ tcs, x.name = "purchase_stock" → x = pc := by
      intro x hx hxname
      exact length_le_one_unique honep
        (List.mem_filter.mpr ⟨hx, by simpa using hxname⟩)
        (List.mem_filter.mpr ⟨hpcmem, by simpa using hpcname⟩)
    by_cases hT : ∃ x ∈ tcs, ¬(x.name = "purchase_stock")
    · -- mixed fan-out: both Preparation and the tools node fire
      obtain ⟨w, hw, hwname⟩ := hT
      have hmemP : "prepare_purchase_details" ∈ tcs.map (fun tc =>
          if tc.name = "purchase_stock" then "prepare_purchase_details"
          else "tools") :=
        List.mem_map.mpr ⟨pc, hpcmem, by simp [hpcname]⟩
      have hmemT : "tools" ∈ tcs.map (fun tc =>
          if tc.name = "purchase_stock" then "prepare_purchase_details"
          else "tools") :=
        List.mem_map.mpr ⟨w, hw, by simp [hwname]⟩
      have hsub : ∀ x ∈ tcs.map (fun tc =>
          if tc.name = "purchase_stock" then "prepare_purchase_details"
          else "tools"), x = "prepare_purchase_details" ∨ x = "tools" := by
        intro x hx
        obtain ⟨tc', -, rfl⟩ := List.mem_map.mp hx
        by_cases h : tc'.name = "purchase_stock" <;> simp [h]
      cases hprep : preparePurchaseDetails env ⟨msgs, none⟩ with
      | error e =>
        exfalso
        have hrunp : runNode env "prepare_purchase_details" ⟨msgs, none⟩ =
            .error e := (runNode_prepare env _).trans hprep
        rcases dedup_pair_eq (by decide) hsub hmemP hmemT with hd | hd <;>
          rw [hd] at hok
        · rw [mapM_cons_err hrunp] at hok
          simp at hok
        · rw [mapM_two_snd_err (runNode_tools env _) hrunp] at hok
          simp at hok
      | ok d =>
        have hrunp : runNode env "prepare_purchase_details" ⟨msgs, none⟩ =
            .ok d := (runNode_prepare env _).trans hprep
        have hcd : countToolResultsFor i d.messages =
            if pid = i then 1 else 0 :=
          preparePurchaseDetails_count env msgs c tcs pc pid none d i hLast
            hfind hjspid (hmissing pc hfind) hprep
        have hct : countToolResultsFor i
            (toolNodeRun env ⟨msgs, none⟩).messages =
            if pid = i then 0 else 1 := by
          rw [toolNodeRun_count env msgs c tcs none i hLast]
          by_cases hpc : tc = pc
          · have hipid : pid = i := by
              rw [hpc] at hid
              exact Option.some.inj (hpcid.symm.trans hid)
            rw [if_pos hipid]
            apply countP_ids_eq_zero
            · intro x hx
              exact hids x (List.mem_filter.mp hx).1
            · intro x hx hxid
              obtain ⟨hxmem, hxname⟩ := List.mem_filter.mp hx
              have hxpc : x = pc := hinj hxmem hpcmem
                (by rw [hxid, hpcid, hipid])
              rw [hxpc] at hxname
              simp [hpcname] at hxname
          · have hipid : ¬(pid = i) := by
              intro h
              exact hpc (hinj htc hpcmem (by rw [hid, hpcid, h]))
            rw [if_neg hipid]
            have hname : ¬(tc.name = "purchase_stock") :=
              fun h => hpc (huniq tc htc h)
            exact countP_ids_eq_one
              (List.Nodup.sublist ((List.filter_sublist tcs).map ToolCall.id)
                hnodup)
              (fun x hx => hids x (List.mem_filter.mp hx).1)
              (List.mem_filter.mpr ⟨htc, by simpa using hname⟩) hid
        rcases dedup_pair_eq (by decide) hsub hmemP hmemT with hd | hd <;>
          rw [hd] at hok
        · rw [mapM_two_ok hrunp (runNode_tools env _)] at hok
          simp only [except_ok_bind, List.map_cons, List.map_nil,
            List.flatten_cons, List.flatten_nil, List.append_nil, except_pure,
            Except.ok.injEq] at hok
          rw [← hok, countToolResultsFor_append, hcd, hct]
          by_cases hpi : pid = i <;> simp [hpi]
        · rw [mapM_two_ok (runNode_tools env _) hrunp] at hok
          simp only [except_ok_bind, List.map_cons, List.map_nil,
            List.flatten_cons, List.flatten_nil, List.append_nil, except_pure,
            Except.ok.injEq] at hok
          rw [← hok, countToolResultsFor_append, hcd, hct]
          by_cases hpi : pid = i <;> simp [hpi]
    · -- every call is the purchase call: the message is the singleton [pc]
      push_neg at hT
      have hallpc : ∀ x ∈ tcs, x = pc := fun x hx => huniq x hx (hT x hx)
      have htcs1 : tcs = [pc] :=
        nodup_all_eq (List.Nodup.of_map _ hnodup) hallpc hpcmem
      have hded : (tcs.map (fun tc => if tc.name = "purchase_stock"
          then "prepare_purchase_details" else "tools")).dedup =
          ["prepare_purchase_details"] := by
        rw [htcs1]
        simp [hpcname]
      rw [hded] at hok
      cases hprep : preparePurchaseDetails env ⟨msgs, none⟩ with
      | error e =>
        exfalso
        have hrunp : runNode env "prepare_purchase_details" ⟨msgs, none⟩ =
            .error e := (runNode_prepare env _).trans hprep
        rw [mapM_cons_err hrunp] at hok
        simp at hok
      | ok d =>
        have hrunp : runNode env "prepare_purchase_details" ⟨msgs, none⟩ =
            .ok d := (runNode_prepare env _).trans hprep
        rw [mapM_one_ok hrunp] at hok
        simp only [except_ok_bind, List.map_cons, List.map_nil,
          List.flatten_cons, List.flatten_nil, List.append_nil, except_pure,
          Except.ok.injEq] at hok
        have htcpc : tc = pc := hallpc tc htc
        have hipid : pid = i := by
          rw [htcpc] at hid
          exact Option.some.inj (hpcid.symm.trans hid)
        rw [← hok]
        rw [preparePurchaseDetails_count env msgs c tcs pc pid none d i hLast
          hfind hjspid (hmissing pc hfind) hprep]
        rw [if_pos hipid]

/-- Witness for the amended C3 at a concrete single-call cycle: the lone
`price_snapshot` call `t1` receives exactly one tool-result. -/
theorem c3_tool_result_completeness_amended_witness :
    countToolResultsFor "t1" [.tool "t1" "tool output"] = 1 :=
  c3_tool_result_completeness_amended c1Env
    [.ai "m" [⟨some "t1", "price_snapshot", { ticker := some "MSFT" }⟩]] "m"
    [⟨some "t1", "price_snapshot", { ticker := some "MSFT" }⟩]
    rfl (by decide) (by decide) (by decide) (by decide)
    (by intro pc hpc; simp at hpc)
    [.tool "t1" "tool output"] rfl
    ⟨some "t1", "price_snapshot", { ticker := some "MSFT" }⟩ (by decide)
    "t1" rfl

/-- Witness for C8 at a concrete state ending in a plain assistant
answer. -/
theorem c8_termination_on_plain_answer_witness :
    shouldContinue ⟨[.user "q", .ai "AAPL trades at 190." []], none⟩ =
      .ok (.single endNode)
    ∧ runFromRouter c1Env 1 ⟨[.user "q", .ai "AAPL trades at 190." []], none⟩ =
      .ok ⟨[.user "q", .ai "AAPL trades at 190." []], none⟩ :=
  c8_termination_on_plain_answer c1Env _ (.ai "AAPL trades at 190." []) 0 rfl
    (Or.inr rfl)

end Stockbroker
